import Mathlib

/-!
Shallow embedding of the `kenwood_vh` protocol decoder
(`src/decoders/kenwood_vh/pd.py` of the libsigrokdecode fork).

The decoder is an edge-driven timing state machine: it seeks a high pulse
longer than 4000 µs (RESET), then classifies each low-phase duration between
consecutive falling edges as a 0 bit (3000..5000 µs, open) or a 1 bit
(6000..8000 µs, open), assembling 16 bits into a word and emitting bit-,
word- and command-level output records.

Modelling choices:
  * sample positions (`samplenum`) are naturals; the decoder's bookkeeping
    fields are integers because `reset()` initialises them to the sentinel -1;
  * `sample_usec` (the float `1 / value * 1000000`) is modelled as an exact
    rational; timing comparisons are the same strict comparisons as in the
    Python source;
  * `self.wait(...)` is modelled by feeding the decoder a list of edge events;
    a `wait` whose condition list does not match the current edge polarity
    (a rising edge while in the BITS state) consumes the edge with no effect,
    exactly like the Python `wait([{0: 'f'}])` skipping non-falling samples;
  * `self.put(a, b, self.out_ann, [row, texts])` becomes appending an `Ann`
    record to the output list;
  * the `raise SamplerateError(...)` guard in `decode()` becomes an
    `Except` error value (`DecodeError.missingSampleRate`).
-/

/-- Polarity of an edge event on the data channel. -/
inductive Polarity where
  | rising
  | falling
deriving DecidableEq, Repr

/-- One edge event: the sample number at which it occurs and its polarity. -/
structure Edge where
  pos : Nat
  pol : Polarity
deriving DecidableEq, Repr

/-- An output record: `self.put(startSample, endSample, self.out_ann, [row, texts])`.
Row 0 holds bit-level records, row 1 word-level, row 2 command-level. -/
structure Ann where
  startSample : Int
  endSample : Int
  row : Nat
  texts : List String
deriving DecidableEq, Repr

/-- The decoder's mutable fields (`Decoder.reset` in the source lists them). -/
structure Decoder where
  content : Nat
  sample_usec : Option ℚ
  lastRising : Int
  lastFalling : Int
  commandStart : Int
  wordStart : Int
  num_bits : Nat
  state : String
deriving DecidableEq, Repr

/-- `Decoder.reset()`: the fresh-decoder field values. -/
def Decoder.resetState : Decoder :=
  { content := 0
    sample_usec := none
    lastRising := -1
    lastFalling := -1
    commandStart := -1
    wordStart := -1
    num_bits := 0
    state := "FIND RESET" }

/-- `Decoder.metadata(SRD_CONF_SAMPLERATE, value)`:
`self.sample_usec = 1 / value * 1000000`. -/
def Decoder.metadata (s : Decoder) (value : ℚ) : Decoder :=
  { s with sample_usec := some (1 / value * 1000000) }

/-- The sample period actually used in arithmetic (`self.sample_usec`). -/
def Decoder.usec (s : Decoder) : ℚ :=
  s.sample_usec.getD 0

/-- The dictionary literal of `contentToDescription`, as an ordered list of
key/value pairs in source order.  The source literal contains the keys
`0x8045` and `0x8044` twice; Python dict literals keep the later binding. -/
def commandTableEntries : List (Nat × String) :=
  [ (0x1000, "System ON")
  , (0x1080, "System OFF")
  , (0x8044, "Source: CD")
  , (0x8045, "CD ON")
  , (0x8084, "Source: FM")
  , (0x8085, "FM ON")
  , (0x80a4, "Source: Tape")
  , (0x80a5, "Tape ON")
  , (0x80b4, "Source: MD")
  , (0x80b5, "MD ON")
  , (0x80c4, "Source: AUX")
  , (0x80c5, "AUX ON")
  , (0x0898, "ON3")
  , (0x857b, "Seek Rev")
  , (0x85fb, "Seek Fwd")
  , (0x04c9, "Tape: ACK?")
  , (0x051b, "Tape Rev")
  , (0x059b, "Tape Fwd")
  , (0x05bb, "Tape Stop")
  , (0x851b, "MD Play/Pause")
  , (0x859b, "MD Stop")
  , (0x8045, "CD Play/Pause")
  , (0x8044, "CD Stop")
  , (0x4590, "Tape OTE")
  , (0x0503, "MD OTE")
  , (0x0581, "Num 1 down")
  , (0x0541, "Num 2 down")
  , (0x05c1, "Num 3 down")
  , (0x0521, "Num 4 down")
  , (0x05a1, "Num 5 down")
  , (0x0561, "Num 6 down")
  , (0x05e1, "Num 7 down")
  , (0x0511, "Num 8 down")
  , (0x0591, "Num 9 down")
  , (0x05b0, "Num +10 down")
  , (0x0501, "Num 0 down")
  , (0x45f2, "Num +100 down")
  , (0x8078, "Button up") ]

/-- Lookup in an ordered key/value list with Python dict-literal semantics:
the LAST binding of a duplicated key wins. -/
def lookupLast (l : List (Nat × String)) (k : Nat) : Option String :=
  match l with
  | [] => none
  | kv :: rest =>
    match lookupLast rest k with
    | some v => some v
    | none => if kv.1 = k then some kv.2 else none

/-- `Decoder.contentToDescription`: `{...}.get(content, '????')`. -/
def contentToDescription (content : Nat) : String :=
  (lookupLast commandTableEntries content).getD "????"

/-- `format(n, '#06x')`: `0x` prefix, then the lowercase hex digits of `n`
(most significant first, no redundant leading zeros, `Nat.toDigits 16`)
zero-padded on the left to a total string width of 6 (i.e. at least 4
digits). -/
def formatHex06 (n : Nat) : String :=
  String.mk (['0', 'x'] ++ List.replicate (4 - (Nat.toDigits 16 n).length) '0' ++
    Nat.toDigits 16 n)

/-- The `FIND RESET` branch of the decode loop: `wait([{0: 'f'},{0: 'r'}])`
followed by the matched-edge dispatch (source lines 145-160). -/
def stepFindReset (s : Decoder) (e : Edge) : Decoder × List Ann :=
  match e.pol with
  | .falling =>
    let s1 := { s with lastFalling := (e.pos : Int) }
    let timeHigh : ℚ := ((s1.lastFalling - s1.lastRising : Int) : ℚ) * s1.usec
    if timeHigh > 4000 then
      ({ s1 with commandStart := s1.lastRising
                 wordStart := s1.lastFalling
                 state := "BITS"
                 content := 0
                 num_bits := 0 },
       [{ startSample := s1.lastRising, endSample := s1.lastFalling,
          row := 0, texts := ["RESET"] }])
    else (s1, [])
  | .rising =>
    ({ s with lastRising := (e.pos : Int) }, [])

/-- The `BITS` branch of the decode loop: `wait([{0: 'f'}])` (a rising edge is
skipped without effect), the low-phase classification, the unconditional
`lastFalling` update, and the 16-bit word emission (source lines 163-180). -/
def stepBits (s : Decoder) (e : Edge) : Decoder × List Ann :=
  match e.pol with
  | .rising => (s, [])
  | .falling =>
    let timeLow : ℚ := (((e.pos : Int) - s.lastFalling : Int) : ℚ) * s.usec
    let r1 : Decoder × List Ann :=
      if timeLow > 3000 ∧ timeLow < 5000 then
        ({ s with content := s.content * 2, num_bits := s.num_bits + 1 },
         [{ startSample := s.lastFalling, endSample := (e.pos : Int),
            row := 0, texts := ["0"] }])
      else if timeLow > 6000 ∧ timeLow < 8000 then
        ({ s with content := s.content * 2 + 1, num_bits := s.num_bits + 1 },
         [{ startSample := s.lastFalling, endSample := (e.pos : Int),
            row := 0, texts := ["1"] }])
      else (s, [])
    let s2 : Decoder := { r1.1 with lastFalling := (e.pos : Int) }
    if s2.num_bits = 16 then
      ({ s2 with state := "FIND RESET" },
       r1.2 ++
        [{ startSample := s2.wordStart, endSample := s2.lastFalling,
           row := 1, texts := [formatHex06 s2.content] },
         { startSample := s2.commandStart, endSample := s2.lastFalling,
           row := 2, texts := [contentToDescription s2.content] }])
    else (s2, r1.2)

/-- One pass through the body of the `while True` loop for one edge event,
dispatching on the current state string. -/
def stepEdge (s : Decoder) (e : Edge) : Decoder × List Ann :=
  if s.state = "FIND RESET" then stepFindReset s e
  else if s.state = "BITS" then stepBits s e
  else (s, [])

/-- Run the decode loop over a finite list of edge events, collecting the
emitted output records in order. -/
def run (s : Decoder) : List Edge → Decoder × List Ann
  | [] => (s, [])
  | e :: es =>
    let r := stepEdge s e
    let rest := run r.1 es
    (rest.1, r.2 ++ rest.2)

/-- The error raised by `decode()` when no samplerate was supplied. -/
inductive DecodeError where
  | missingSampleRate
deriving DecidableEq, Repr

/-- `Decoder.decode()`: the `if not self.sample_usec: raise SamplerateError`
guard (true for an unset `None` and for a zero period), then the edge loop. -/
def decode (s : Decoder) (es : List Edge) : Except DecodeError (Decoder × List Ann) :=
  match s.sample_usec with
  | none => .error .missingSampleRate
  | some u => if u = 0 then .error .missingSampleRate else .ok (run s es)

/-- A decoder state reachable from a fresh decoder that was given a positive
samplerate, after some list of edge events. -/
def Reachable (s : Decoder) : Prop :=
  ∃ (rate : ℚ) (es : List Edge),
    0 < rate ∧ (run (Decoder.resetState.metadata rate) es).1 = s

/-- The invariant maintained by every step once a positive samplerate is set:
the period is positive, at most 16 bits are ever accumulated, and while
reading bits strictly fewer than 16 bits are pending and the command start
(the reset's rising edge) lies strictly before the word start (the reset's
falling edge). -/
def StateInv (s : Decoder) : Prop :=
  0 < s.usec ∧ s.num_bits ≤ 16 ∧
    (s.state = "BITS" → s.num_bits < 16 ∧ s.commandStart < s.wordStart)

/-- Decoder state while reading bits in the concrete run: all-zero content,
reset pulse spanned samples 0..50. -/
def bitsState (lf : Int) (nb : Nat) : Decoder :=
  { content := 0, sample_usec := some 100, lastRising := 0, lastFalling := lf,
    commandStart := 0, wordStart := 50, num_bits := nb, state := "BITS" }

/-- Decoder state after the first rising edge of the concrete run. -/
def afterRising : Decoder :=
  { content := 0, sample_usec := some 100, lastRising := 0, lastFalling := -1,
    commandStart := -1, wordStart := -1, num_bits := 0, state := "FIND RESET" }

/-- The first seventeen edges of the concrete run: a rising edge, the reset's
falling edge, and fifteen bit-cell falling edges 40 samples (4000 µs) apart. -/
def traceA : List Edge :=
  [⟨0, .rising⟩, ⟨50, .falling⟩, ⟨90, .falling⟩, ⟨130, .falling⟩, ⟨170, .falling⟩,
   ⟨210, .falling⟩, ⟨250, .falling⟩, ⟨290, .falling⟩, ⟨330, .falling⟩, ⟨370, .falling⟩,
   ⟨410, .falling⟩, ⟨450, .falling⟩, ⟨490, .falling⟩, ⟨530, .falling⟩, ⟨570, .falling⟩,
   ⟨610, .falling⟩, ⟨650, .falling⟩]

/-- A bit-level "0" output record of the concrete run. -/
def bitAnn (a b : Int) : Ann := { startSample := a, endSample := b, row := 0, texts := ["0"] }

/-- The reset output record of the concrete run. -/
def resetAnnA : Ann := { startSample := 0, endSample := 50, row := 0, texts := ["RESET"] }

/-- The state after the sixteenth bit of the concrete run. -/
def wordDoneA : Decoder :=
  { content := 0, sample_usec := some 100, lastRising := 0, lastFalling := 690,
    commandStart := 0, wordStart := 50, num_bits := 16, state := "FIND RESET" }

/-- The word-level output record of the concrete run. -/
def wordAnnA : Ann := { startSample := 50, endSample := 690, row := 1, texts := ["0x0000"] }

/-- The command-level output record of the concrete run. -/
def cmdAnnA : Ann := { startSample := 0, endSample := 690, row := 2, texts := ["????"] }

/-- The sixteen lowercase hexadecimal digit characters. -/
def lowercaseHexChars : List Char :=
  "0123456789abcdef".toList


/-! ### Basic facts about the state strings and step functions -/

lemma neBF : (("BITS" : String) = "FIND RESET") = False := by decide

lemma neFB : (("FIND RESET" : String) = "BITS") = False := by decide

lemma stepEdge_findReset (s : Decoder) (e : Edge) (h : s.state = "FIND RESET") :
    stepEdge s e = stepFindReset s e := by
  simp [stepEdge, h]

lemma stepEdge_bits (s : Decoder) (e : Edge) (h : s.state = "BITS") :
    stepEdge s e = stepBits s e := by
  simp [stepEdge, h, neBF]

lemma stepEdge_other (s : Decoder) (e : Edge) (h1 : ¬s.state = "FIND RESET")
    (h2 : ¬s.state = "BITS") : stepEdge s e = (s, []) := by
  simp [stepEdge, h1, h2]

lemma stepFindReset_rising (s : Decoder) (p : Nat) :
    stepFindReset s ⟨p, .rising⟩ = ({ s with lastRising := (p : Int) }, []) := rfl

lemma stepFindReset_falling_pos (s : Decoder) (p : Nat)
    (h : (((p : Int) - s.lastRising : Int) : ℚ) * s.usec > 4000) :
    stepFindReset s ⟨p, .falling⟩ =
      ({ s with lastFalling := (p : Int), commandStart := s.lastRising,
                wordStart := (p : Int), state := "BITS", content := 0, num_bits := 0 },
       [{ startSample := s.lastRising, endSample := (p : Int), row := 0,
          texts := ["RESET"] }]) := by
  simp only [stepFindReset, Decoder.usec]
  split_ifs with hc
  · rfl
  · exact absurd (by simpa [Decoder.usec] using h) hc

lemma stepFindReset_falling_neg (s : Decoder) (p : Nat)
    (h : ¬(((p : Int) - s.lastRising : Int) : ℚ) * s.usec > 4000) :
    stepFindReset s ⟨p, .falling⟩ = ({ s with lastFalling := (p : Int) }, []) := by
  simp only [stepFindReset, Decoder.usec]
  split_ifs with hc
  · exact absurd (by simpa [Decoder.usec] using hc) h
  · rfl

lemma stepBits_rising (s : Decoder) (p : Nat) :
    stepBits s ⟨p, .rising⟩ = (s, []) := rfl

lemma stepBits_falling_zero (s : Decoder) (p : Nat)
    (h1 : (((p : Int) - s.lastFalling : Int) : ℚ) * s.usec > 3000)
    (h2 : (((p : Int) - s.lastFalling : Int) : ℚ) * s.usec < 5000)
    (h16 : s.num_bits + 1 ≠ 16) :
    stepBits s ⟨p, .falling⟩ =
      ({ s with content := s.content * 2, num_bits := s.num_bits + 1,
                lastFalling := (p : Int) },
       [{ startSample := s.lastFalling, endSample := (p : Int), row := 0,
          texts := ["0"] }]) := by
  have hA : (((p : Int) - s.lastFalling : Int) : ℚ) * s.usec > 3000 ∧
      (((p : Int) - s.lastFalling : Int) : ℚ) * s.usec < 5000 := ⟨h1, h2⟩
  simp only [stepBits]
  rw [if_pos hA]
  simp [h16]

lemma stepBits_falling_zero16 (s : Decoder) (p : Nat)
    (h1 : (((p : Int) - s.lastFalling : Int) : ℚ) * s.usec > 3000)
    (h2 : (((p : Int) - s.lastFalling : Int) : ℚ) * s.usec < 5000)
    (h16 : s.num_bits + 1 = 16) :
    stepBits s ⟨p, .falling⟩ =
      ({ s with content := s.content * 2, num_bits := s.num_bits + 1,
                lastFalling := (p : Int), state := "FIND RESET" },
       [{ startSample := s.lastFalling, endSample := (p : Int), row := 0,
          texts := ["0"] },
        { startSample := s.wordStart, endSample := (p : Int), row := 1,
          texts := [formatHex06 (s.content * 2)] },
        { startSample := s.commandStart, endSample := (p : Int), row := 2,
          texts := [contentToDescription (s.content * 2)] }]) := by
  have hA : (((p : Int) - s.lastFalling : Int) : ℚ) * s.usec > 3000 ∧
      (((p : Int) - s.lastFalling : Int) : ℚ) * s.usec < 5000 := ⟨h1, h2⟩
  simp only [stepBits]
  rw [if_pos hA]
  simp [h16]

lemma stepBits_falling_one (s : Decoder) (p : Nat)
    (h1 : (((p : Int) - s.lastFalling : Int) : ℚ) * s.usec > 6000)
    (h2 : (((p : Int) - s.lastFalling : Int) : ℚ) * s.usec < 8000)
    (h16 : s.num_bits + 1 ≠ 16) :
    stepBits s ⟨p, .falling⟩ =
      ({ s with content := s.content * 2 + 1, num_bits := s.num_bits + 1,
                lastFalling := (p : Int) },
       [{ startSample := s.lastFalling, endSample := (p : Int), row := 0,
          texts := ["1"] }]) := by
  have hA : ¬((((p : Int) - s.lastFalling : Int) : ℚ) * s.usec > 3000 ∧
      (((p : Int) - s.lastFalling : Int) : ℚ) * s.usec < 5000) := by
    rintro ⟨-, hb⟩; linarith
  have hB : (((p : Int) - s.lastFalling : Int) : ℚ) * s.usec > 6000 ∧
      (((p : Int) - s.lastFalling : Int) : ℚ) * s.usec < 8000 := ⟨h1, h2⟩
  simp only [stepBits]
  rw [if_neg hA, if_pos hB]
  simp [h16]

lemma stepBits_falling_one16 (s : Decoder) (p : Nat)
    (h1 : (((p : Int) - s.lastFalling : Int) : ℚ) * s.usec > 6000)
    (h2 : (((p : Int) - s.lastFalling : Int) : ℚ) * s.usec < 8000)
    (h16 : s.num_bits + 1 = 16) :
    stepBits s ⟨p, .falling⟩ =
      ({ s with content := s.content * 2 + 1, num_bits := s.num_bits + 1,
                lastFalling := (p : Int), state := "FIND RESET" },
       [{ startSample := s.lastFalling, endSample := (p : Int), row := 0,
          texts := ["1"] },
        { startSample := s.wordStart, endSample := (p : Int), row := 1,
          texts := [formatHex06 (s.content * 2 + 1)] },
        { startSample := s.commandStart, endSample := (p : Int), row := 2,
          texts := [contentToDescription (s.content * 2 + 1)] }]) := by
  have hA : ¬((((p : Int) - s.lastFalling : Int) : ℚ) * s.usec > 3000 ∧
      (((p : Int) - s.lastFalling : Int) : ℚ) * s.usec < 5000) := by
    rintro ⟨-, hb⟩; linarith
  have hB : (((p : Int) - s.lastFalling : Int) : ℚ) * s.usec > 6000 ∧
      (((p : Int) - s.lastFalling : Int) : ℚ) * s.usec < 8000 := ⟨h1, h2⟩
  simp only [stepBits]
  rw [if_neg hA, if_pos hB]
  simp [h16]

lemma stepBits_falling_none (s : Decoder) (p : Nat)
    (hA : ¬((((p : Int) - s.lastFalling : Int) : ℚ) * s.usec > 3000 ∧
            (((p : Int) - s.lastFalling : Int) : ℚ) * s.usec < 5000))
    (hB : ¬((((p : Int) - s.lastFalling : Int) : ℚ) * s.usec > 6000 ∧
            (((p : Int) - s.lastFalling : Int) : ℚ) * s.usec < 8000))
    (h16 : s.num_bits ≠ 16) :
    stepBits s ⟨p, .falling⟩ = ({ s with lastFalling := (p : Int) }, []) := by
  simp only [stepBits]
  rw [if_neg hA, if_neg hB]
  simp [h16]

lemma stepBits_falling_none16 (s : Decoder) (p : Nat)
    (hA : ¬((((p : Int) - s.lastFalling : Int) : ℚ) * s.usec > 3000 ∧
            (((p : Int) - s.lastFalling : Int) : ℚ) * s.usec < 5000))
    (hB : ¬((((p : Int) - s.lastFalling : Int) : ℚ) * s.usec > 6000 ∧
            (((p : Int) - s.lastFalling : Int) : ℚ) * s.usec < 8000))
    (h16 : s.num_bits = 16) :
    stepBits s ⟨p, .falling⟩ =
      ({ s with lastFalling := (p : Int), state := "FIND RESET" },
       [{ startSample := s.wordStart, endSample := (p : Int), row := 1,
          texts := [formatHex06 s.content] },
        { startSample := s.commandStart, endSample := (p : Int), row := 2,
          texts := [contentToDescription s.content] }]) := by
  simp only [stepBits]
  rw [if_neg hA, if_neg hB]
  simp [h16]

/-! ### The reachability invariant -/

lemma pos_diff_of_mul_usec_gt (d : Int) (u : ℚ) (hu : 0 < u) (h : (d : ℚ) * u > 4000) :
    0 < d := by
  by_contra hd
  push_neg at hd
  have hd' : (d : ℚ) ≤ 0 := by exact_mod_cast hd
  nlinarith

lemma inv_stepEdge (s : Decoder) (e : Edge) (h : StateInv s) : StateInv (stepEdge s e).1 := by
  obtain ⟨hu, hn, hb⟩ := h
  obtain ⟨p, pol⟩ := e
  by_cases hfr : s.state = "FIND RESET"
  · rw [stepEdge_findReset _ _ hfr]
    cases pol with
    | rising =>
      rw [stepFindReset_rising]
      refine ⟨by simpa [Decoder.usec] using hu, hn, fun hst => hb ?_⟩
      simpa using hst
    | falling =>
      by_cases hc : (((p : Int) - s.lastRising : Int) : ℚ) * s.usec > 4000
      · rw [stepFindReset_falling_pos _ _ hc]
        refine ⟨by simpa [Decoder.usec] using hu, by simp, fun _ => ⟨by simp, ?_⟩⟩
        have := pos_diff_of_mul_usec_gt _ _ hu hc
        simp only
        omega
      · rw [stepFindReset_falling_neg _ _ hc]
        refine ⟨by simpa [Decoder.usec] using hu, hn, fun hst => ?_⟩
        rw [show ({ s with lastFalling := (p : Int) } : Decoder).state = s.state from rfl,
          hfr] at hst
        exact absurd hst (by simp [neFB])
  · by_cases hbs : s.state = "BITS"
    · rw [stepEdge_bits _ _ hbs]
      obtain ⟨hlt, hcw⟩ := hb hbs
      cases pol with
      | rising => exact ⟨by simpa using hu, hn, hb⟩
      | falling =>
        by_cases hA : (((p : Int) - s.lastFalling : Int) : ℚ) * s.usec > 3000 ∧
            (((p : Int) - s.lastFalling : Int) : ℚ) * s.usec < 5000
        · by_cases h16 : s.num_bits + 1 = 16
          · rw [stepBits_falling_zero16 _ _ hA.1 hA.2 h16]
            refine ⟨by simpa [Decoder.usec] using hu, by simp; omega, fun hst => ?_⟩
            simp [neFB] at hst
          · rw [stepBits_falling_zero _ _ hA.1 hA.2 h16]
            refine ⟨by simpa [Decoder.usec] using hu, by simp; omega, fun _ => ?_⟩
            refine ⟨by simp; omega, by simpa using hcw⟩
        · by_cases hB : (((p : Int) - s.lastFalling : Int) : ℚ) * s.usec > 6000 ∧
              (((p : Int) - s.lastFalling : Int) : ℚ) * s.usec < 8000
          · by_cases h16 : s.num_bits + 1 = 16
            · rw [stepBits_falling_one16 _ _ hB.1 hB.2 h16]
              refine ⟨by simpa [Decoder.usec] using hu, by simp; omega, fun hst => ?_⟩
              simp [neFB] at hst
            · rw [stepBits_falling_one _ _ hB.1 hB.2 h16]
              refine ⟨by simpa [Decoder.usec] using hu, by simp; omega, fun _ => ?_⟩
              refine ⟨by simp; omega, by simpa using hcw⟩
          · rw [stepBits_falling_none _ _ hA hB (by omega)]
            refine ⟨by simpa [Decoder.usec] using hu, by simpa using hn, fun _ => ?_⟩
            exact ⟨by simpa using hlt, by simpa using hcw⟩
    · rw [stepEdge_other _ _ hfr hbs]
      exact ⟨hu, hn, hb⟩

lemma inv_run (s : Decoder) (es : List Edge) (h : StateInv s) : StateInv (run s es).1 := by
  induction es generalizing s with
  | nil => simpa [run] using h
  | cons e es ih =>
    simp only [run]
    exact ih _ (inv_stepEdge s e h)

lemma inv_metadata (rate : ℚ) (h : 0 < rate) :
    StateInv (Decoder.resetState.metadata rate) := by
  refine ⟨?_, by simp [Decoder.metadata, Decoder.resetState], fun hst => ?_⟩
  · have : (0 : ℚ) < 1 / rate * 1000000 := by positivity
    simpa [Decoder.metadata, Decoder.resetState, Decoder.usec] using this
  · simp [Decoder.metadata, Decoder.resetState, neFB] at hst

lemma reachable_inv (s : Decoder) (h : Reachable s) : StateInv s := by
  obtain ⟨rate, es, hr, heq⟩ := h
  exact heq ▸ inv_run _ es (inv_metadata rate hr)

/-- Characterises every word-level or command-level output record a single
step can emit: it only happens in the `BITS` state, the post-step bit count
is exactly 16, the record ends at the current falling edge, a row-1 record
starts at `wordStart` and a row-2 record starts at `commandStart`. -/
lemma stepEdge_emission (s : Decoder) (e : Edge) (h : StateInv s) :
    ∀ a ∈ (stepEdge s e).2, 1 ≤ a.row →
      s.state = "BITS" ∧ (stepEdge s e).1.num_bits = 16 ∧
      a.endSample = (e.pos : Int) ∧
      ((a.row = 1 ∧ a.startSample = s.wordStart) ∨
        (a.row = 2 ∧ a.startSample = s.commandStart)) := by
  obtain ⟨hu, hn, hb⟩ := h
  obtain ⟨p, pol⟩ := e
  intro a ha hr
  by_cases hfr : s.state = "FIND RESET"
  · rw [stepEdge_findReset _ _ hfr] at ha ⊢
    cases pol with
    | rising =>
      rw [stepFindReset_rising] at ha
      simp at ha
    | falling =>
      by_cases hc : (((p : Int) - s.lastRising : Int) : ℚ) * s.usec > 4000
      · rw [stepFindReset_falling_pos _ _ hc] at ha
        simp at ha
        subst ha
        simp at hr
      · rw [stepFindReset_falling_neg _ _ hc] at ha
        simp at ha
  · by_cases hbs : s.state = "BITS"
    · rw [stepEdge_bits _ _ hbs] at ha ⊢
      obtain ⟨hlt, hcw⟩ := hb hbs
      cases pol with
      | rising =>
        rw [stepBits_rising] at ha
        simp at ha
      | falling =>
        by_cases hA : (((p : Int) - s.lastFalling : Int) : ℚ) * s.usec > 3000 ∧
            (((p : Int) - s.lastFalling : Int) : ℚ) * s.usec < 5000
        · by_cases h16 : s.num_bits + 1 = 16
          · rw [stepBits_falling_zero16 _ _ hA.1 hA.2 h16] at ha ⊢
            simp only [List.mem_cons, List.mem_singleton, List.not_mem_nil] at ha
            rcases ha with rfl | rfl | rfl | hfalse
            · simp at hr
            · exact ⟨hbs, by simpa using h16, rfl, Or.inl ⟨rfl, rfl⟩⟩
            · exact ⟨hbs, by simpa using h16, rfl, Or.inr ⟨rfl, rfl⟩⟩
            · exact absurd hfalse (by simp)
          · rw [stepBits_falling_zero _ _ hA.1 hA.2 h16] at ha
            simp at ha
            subst ha
            simp at hr
        · by_cases hB : (((p : Int) - s.lastFalling : Int) : ℚ) * s.usec > 6000 ∧
              (((p : Int) - s.lastFalling : Int) : ℚ) * s.usec < 8000
          · by_cases h16 : s.num_bits + 1 = 16
            · rw [stepBits_falling_one16 _ _ hB.1 hB.2 h16] at ha ⊢
              simp only [List.mem_cons, List.mem_singleton, List.not_mem_nil] at ha
              rcases ha with rfl | rfl | rfl | hfalse
              · simp at hr
              · exact ⟨hbs, by simpa using h16, rfl, Or.inl ⟨rfl, rfl⟩⟩
              · exact ⟨hbs, by simpa using h16, rfl, Or.inr ⟨rfl, rfl⟩⟩
              · exact absurd hfalse (by simp)
            · rw [stepBits_falling_one _ _ hB.1 hB.2 h16] at ha
              simp at ha
              subst ha
              simp at hr
          · rw [stepBits_falling_none _ _ hA hB (by omega)] at ha
            simp at ha
    · rw [stepEdge_other _ _ hfr hbs] at ha
      simp at ha

/-! ### A concrete run: 10 kHz samplerate (100 µs period), a 5000 µs reset
pulse, then sixteen 4000 µs low phases, i.e. the word 0x0000. -/

lemma traceA_run :
    run (Decoder.resetState.metadata 10000) traceA =
      (bitsState 650 15,
       resetAnnA ::
       [bitAnn 50 90, bitAnn 90 130, bitAnn 130 170, bitAnn 170 210, bitAnn 210 250,
        bitAnn 250 290, bitAnn 290 330, bitAnn 330 370, bitAnn 370 410, bitAnn 410 450,
        bitAnn 450 490, bitAnn 490 530, bitAnn 530 570, bitAnn 570 610, bitAnn 610 650]) := by
  have h0 : stepEdge (Decoder.resetState.metadata 10000) ⟨0, .rising⟩ = (afterRising, []) := by
    norm_num [stepEdge, stepFindReset, Decoder.metadata, Decoder.resetState, afterRising]
  have h1 : stepEdge afterRising ⟨50, .falling⟩ = (bitsState 50 0, [resetAnnA]) := by
    norm_num [stepEdge, stepFindReset, Decoder.usec, bitsState, afterRising, resetAnnA]
  have h2 : stepEdge (bitsState 50 0) ⟨90, .falling⟩ =
      (bitsState 90 1, [bitAnn 50 90]) := by
    norm_num [stepEdge, stepBits, Decoder.usec, bitsState, bitAnn, neBF]
  have h3 : stepEdge (bitsState 90 1) ⟨130, .falling⟩ =
      (bitsState 130 2, [bitAnn 90 130]) := by
    norm_num [stepEdge, stepBits, Decoder.usec, bitsState, bitAnn, neBF]
  have h4 : stepEdge (bitsState 130 2) ⟨170, .falling⟩ =
      (bitsState 170 3, [bitAnn 130 170]) := by
    norm_num [stepEdge, stepBits, Decoder.usec, bitsState, bitAnn, neBF]
  have h5 : stepEdge (bitsState 170 3) ⟨210, .falling⟩ =
      (bitsState 210 4, [bitAnn 170 210]) := by
    norm_num [stepEdge, stepBits, Decoder.usec, bitsState, bitAnn, neBF]
  have h6 : stepEdge (bitsState 210 4) ⟨250, .falling⟩ =
      (bitsState 250 5, [bitAnn 210 250]) := by
    norm_num [stepEdge, stepBits, Decoder.usec, bitsState, bitAnn, neBF]
  have h7 : stepEdge (bitsState 250 5) ⟨290, .falling⟩ =
      (bitsState 290 6, [bitAnn 250 290]) := by
    norm_num [stepEdge, stepBits, Decoder.usec, bitsState, bitAnn, neBF]
  have h8 : stepEdge (bitsState 290 6) ⟨330, .falling⟩ =
      (bitsState 330 7, [bitAnn 290 330]) := by
    norm_num [stepEdge, stepBits, Decoder.usec, bitsState, bitAnn, neBF]
  have h9 : stepEdge (bitsState 330 7) ⟨370, .falling⟩ =
      (bitsState 370 8, [bitAnn 330 370]) := by
    norm_num [stepEdge, stepBits, Decoder.usec, bitsState, bitAnn, neBF]
  have h10 : stepEdge (bitsState 370 8) ⟨410, .falling⟩ =
      (bitsState 410 9, [bitAnn 370 410]) := by
    norm_num [stepEdge, stepBits, Decoder.usec, bitsState, bitAnn, neBF]
  have h11 : stepEdge (bitsState 410 9) ⟨450, .falling⟩ =
      (bitsState 450 10, [bitAnn 410 450]) := by
    norm_num [stepEdge, stepBits, Decoder.usec, bitsState, bitAnn, neBF]
  have h12 : stepEdge (bitsState 450 10) ⟨490, .falling⟩ =
      (bitsState 490 11, [bitAnn 450 490]) := by
    norm_num [stepEdge, stepBits, Decoder.usec, bitsState, bitAnn, neBF]
  have h13 : stepEdge (bitsState 490 11) ⟨530, .falling⟩ =
      (bitsState 530 12, [bitAnn 490 530]) := by
    norm_num [stepEdge, stepBits, Decoder.usec, bitsState, bitAnn, neBF]
  have h14 : stepEdge (bitsState 530 12) ⟨570, .falling⟩ =
      (bitsState 570 13, [bitAnn 530 570]) := by
    norm_num [stepEdge, stepBits, Decoder.usec, bitsState, bitAnn, neBF]
  have h15 : stepEdge (bitsState 570 13) ⟨610, .falling⟩ =
      (bitsState 610 14, [bitAnn 570 610]) := by
    norm_num [stepEdge, stepBits, Decoder.usec, bitsState, bitAnn, neBF]
  have h16 : stepEdge (bitsState 610 14) ⟨650, .falling⟩ =
      (bitsState 650 15, [bitAnn 610 650]) := by
    norm_num [stepEdge, stepBits, Decoder.usec, bitsState, bitAnn, neBF]
  simp [traceA, run, h0, h1, h2, h3, h4, h5, h6, h7, h8, h9, h10, h11, h12,
    h13, h14, h15, h16]

lemma reachable_bitsState_650 : Reachable (bitsState 650 15) :=
  ⟨10000, traceA, by norm_num, congrArg Prod.fst traceA_run⟩

lemma reachable_bitsState_50 : Reachable (bitsState 50 0) := by
  refine ⟨10000, [⟨0, .rising⟩, ⟨50, .falling⟩], by norm_num, ?_⟩
  have h0 : stepEdge (Decoder.resetState.metadata 10000) ⟨0, .rising⟩ = (afterRising, []) := by
    norm_num [stepEdge, stepFindReset, Decoder.metadata, Decoder.resetState, afterRising]
  have h1 : stepEdge afterRising ⟨50, .falling⟩ = (bitsState 50 0, [resetAnnA]) := by
    norm_num [stepEdge, stepFindReset, Decoder.usec, bitsState, afterRising, resetAnnA]
  simp [run, h0, h1]

lemma stepA16 : stepEdge (bitsState 650 15) ⟨690, .falling⟩ =
    (wordDoneA, [bitAnn 650 690, wordAnnA, cmdAnnA]) := by
  have hf : formatHex06 0 = "0x0000" := by decide
  have hd : contentToDescription 0 = "????" := by decide
  norm_num [stepEdge, stepBits, Decoder.usec, bitsState, bitAnn, neBF, wordDoneA,
    wordAnnA, cmdAnnA, hf, hd]

/-! ### Shape of the word text -/

lemma digitChar_mem_hex (m : Nat) (h : m < 16) : Nat.digitChar m ∈ lowercaseHexChars := by
  interval_cases m <;> decide

lemma toDigitsCore_mem_hex :
    ∀ (f n : Nat) (ds : List Char), (∀ c ∈ ds, c ∈ lowercaseHexChars) →
      ∀ c ∈ Nat.toDigitsCore 16 f n ds, c ∈ lowercaseHexChars := by
  intro f
  induction f with
  | zero =>
    intro n ds hds c hc
    exact hds c hc
  | succ f ih =>
    intro n ds hds c hc
    rw [Nat.toDigitsCore] at hc
    by_cases hz : n / 16 = 0
    · rw [if_pos hz] at hc
      rcases List.mem_cons.mp hc with rfl | hmem
      · exact digitChar_mem_hex _ (Nat.mod_lt _ (by omega))
      · exact hds c hmem
    · rw [if_neg hz] at hc
      refine ih (n / 16) (Nat.digitChar (n % 16) :: ds) ?_ c hc
      intro c' hc'
      rcases List.mem_cons.mp hc' with rfl | hmem
      · exact digitChar_mem_hex _ (Nat.mod_lt _ (by omega))
      · exact hds c' hmem

lemma toDigits_length_le_four (n : Nat) (h : n < 65536) :
    (Nat.toDigits 16 n).length ≤ 4 := by
  have h4 : n < 16 ^ 4 := by norm_num at h ⊢; omega
  exact Nat.toDigitsCore_length 16 (by norm_num) (n + 1) n 4 h4 (by norm_num)

/-- For any 16-bit value the emitted word text is a literal `0x` followed by
exactly four lowercase hexadecimal digit characters. -/
lemma formatHex06_shape (n : Nat) (h : n < 65536) :
    ∃ ds : List Char, ds.length = 4 ∧ (∀ c ∈ ds, c ∈ lowercaseHexChars) ∧
      formatHex06 n = String.mk ('0' :: 'x' :: ds) := by
  refine ⟨List.replicate (4 - (Nat.toDigits 16 n).length) '0' ++ Nat.toDigits 16 n,
    ?_, ?_, rfl⟩
  · have := toDigits_length_le_four n h
    simp only [List.length_append, List.length_replicate]
    omega
  · intro c hc
    rcases List.mem_append.mp hc with h1 | h2
    · rw [List.eq_of_mem_replicate h1]
      decide
    · exact toDigitsCore_mem_hex (n + 1) n [] (by simp) c h2

lemma lookupLast_eq_none (l : List (Nat × String)) (k : Nat)
    (h : ∀ kv ∈ l, kv.1 ≠ k) : lookupLast l k = none := by
  induction l with
  | nil => rfl
  | cons kv rest ih =>
    rw [lookupLast, ih fun kv' h' => h kv' (List.mem_cons_of_mem _ h')]
    simp [h kv (List.mem_cons_self _ _)]

/-! ### Claim theorems -/

/-- C1: in the `BITS` (ReadingBits) state, a falling edge at `p` with
low-phase duration `d = (p - lastFalling) * sample_usec` appends a 0 bit
(`content * 2`, bit count +1, one bit-level record `[lastFalling, p)`
labeled "0") when `3000 < d < 5000`, appends a 1 bit (`content * 2 + 1`,
bit count +1, record labeled "1") when `6000 < d < 8000`, and for `d`
outside both open bands appends nothing: the accumulator, the bit counter
and the bit-level output are unchanged. -/
theorem bits_low_phase_classification (s : Decoder) (p : Nat) (hs : s.state = "BITS") :
    ((((p : Int) - s.lastFalling : Int) : ℚ) * s.usec > 3000 ∧
       (((p : Int) - s.lastFalling : Int) : ℚ) * s.usec < 5000 →
      (stepEdge s ⟨p, .falling⟩).1.content = s.content * 2 ∧
      (stepEdge s ⟨p, .falling⟩).1.num_bits = s.num_bits + 1 ∧
      (stepEdge s ⟨p, .falling⟩).2.filter (fun a => a.row == 0) =
        [{ startSample := s.lastFalling, endSample := (p : Int), row := 0,
           texts := ["0"] }]) ∧
    ((((p : Int) - s.lastFalling : Int) : ℚ) * s.usec > 6000 ∧
       (((p : Int) - s.lastFalling : Int) : ℚ) * s.usec < 8000 →
      (stepEdge s ⟨p, .falling⟩).1.content = s.content * 2 + 1 ∧
      (stepEdge s ⟨p, .falling⟩).1.num_bits = s.num_bits + 1 ∧
      (stepEdge s ⟨p, .falling⟩).2.filter (fun a => a.row == 0) =
        [{ startSample := s.lastFalling, endSample := (p : Int), row := 0,
           texts := ["1"] }]) ∧
    (¬((((p : Int) - s.lastFalling : Int) : ℚ) * s.usec > 3000 ∧
        (((p : Int) - s.lastFalling : Int) : ℚ) * s.usec < 5000) →
     ¬((((p : Int) - s.lastFalling : Int) : ℚ) * s.usec > 6000 ∧
        (((p : Int) - s.lastFalling : Int) : ℚ) * s.usec < 8000) →
      (stepEdge s ⟨p, .falling⟩).1.content = s.content ∧
      (stepEdge s ⟨p, .falling⟩).1.num_bits = s.num_bits ∧
      (stepEdge s ⟨p, .falling⟩).2.filter (fun a => a.row == 0) = []) := by
  rw [stepEdge_bits _ _ hs]
  refine ⟨fun hA => ?_, fun hB => ?_, fun hA hB => ?_⟩
  · by_cases h16 : s.num_bits + 1 = 16
    · rw [stepBits_falling_zero16 _ _ hA.1 hA.2 h16]
      simp
    · rw [stepBits_falling_zero _ _ hA.1 hA.2 h16]
      simp
  · by_cases h16 : s.num_bits + 1 = 16
    · rw [stepBits_falling_one16 _ _ hB.1 hB.2 h16]
      simp
    · rw [stepBits_falling_one _ _ hB.1 hB.2 h16]
      simp
  · by_cases h16 : s.num_bits = 16
    · rw [stepBits_falling_none16 _ _ hA hB h16]
      simp
    · rw [stepBits_falling_none _ _ hA hB h16]
      simp

/-- C1 witness: a concrete 3500 µs low phase in the concrete run appends a
0 bit. -/
theorem bits_low_phase_classification_witness :
    (stepEdge (bitsState 50 0) ⟨85, .falling⟩).1.content = (bitsState 50 0).content * 2 ∧
    (stepEdge (bitsState 50 0) ⟨85, .falling⟩).1.num_bits = (bitsState 50 0).num_bits + 1 ∧
    (stepEdge (bitsState 50 0) ⟨85, .falling⟩).2.filter (fun a => a.row == 0) =
      [{ startSample := (bitsState 50 0).lastFalling, endSample := (85 : Int),
         row := 0, texts := ["0"] }] :=
  (bits_low_phase_classification (bitsState 50 0) 85 rfl).1
    (by norm_num [bitsState, Decoder.usec])

/-- C2: in the `FIND RESET` state, a falling edge at `p` with
`timeHigh = (p - lastRising) * sample_usec > 4000` emits a bit-level RESET
record spanning `[lastRising, p)`, sets `commandStart = lastRising`,
`wordStart = p`, clears the accumulator and bit counter, and moves to the
`BITS` state; with `timeHigh ≤ 4000` it emits nothing and stays in
`FIND RESET` (only `lastFalling` is recorded). -/
theorem findReset_falling_behavior (s : Decoder) (p : Nat) (hs : s.state = "FIND RESET") :
    ((((p : Int) - s.lastRising : Int) : ℚ) * s.usec > 4000 →
      stepEdge s ⟨p, .falling⟩ =
        ({ s with lastFalling := (p : Int), commandStart := s.lastRising,
                  wordStart := (p : Int), state := "BITS", content := 0,
                  num_bits := 0 },
         [{ startSample := s.lastRising, endSample := (p : Int), row := 0,
            texts := ["RESET"] }])) ∧
    ((((p : Int) - s.lastRising : Int) : ℚ) * s.usec ≤ 4000 →
      stepEdge s ⟨p, .falling⟩ = ({ s with lastFalling := (p : Int) }, [])) := by
  rw [stepEdge_findReset _ _ hs]
  exact ⟨fun h => stepFindReset_falling_pos _ _ h,
    fun h => stepFindReset_falling_neg _ _ (not_lt.mpr h)⟩

/-- C2 witness: a concrete 5000 µs high pulse is recognised as a reset. -/
theorem findReset_falling_behavior_witness :
    stepEdge afterRising ⟨50, .falling⟩ = (bitsState 50 0, [resetAnnA]) :=
  (findReset_falling_behavior afterRising 50 rfl).1
    (by norm_num [afterRising, Decoder.usec])

/-- C5 (code evaluation): on the very first falling edge, with `lastRising`
still holding the sentinel -1, the code computes
`timeHigh = (50 - (-1)) * 100 = 5100 > 4000`, emits a RESET record spanning
`[-1, 50)` and transitions to the `BITS` state — there is no sentinel
guard. -/
theorem sentinel_reset_code_eval :
    (stepEdge (Decoder.resetState.metadata 10000) ⟨50, .falling⟩).1.state = "BITS" ∧
    (stepEdge (Decoder.resetState.metadata 10000) ⟨50, .falling⟩).2 =
      [{ startSample := -1, endSample := 50, row := 0, texts := ["RESET"] }] := by
  norm_num [stepEdge, stepFindReset, Decoder.metadata, Decoder.resetState, Decoder.usec]

/-- C6: invoking `decode()` while the sample period is unset fails with the
missing-samplerate error before any edge is processed; no output record is
produced. -/
theorem decode_missing_samplerate (s : Decoder) (es : List Edge)
    (h : s.sample_usec = none) :
    decode s es = Except.error DecodeError.missingSampleRate := by
  simp [decode, h]

/-- C6 witness: a freshly reset decoder (no metadata) fails on a nonempty
edge stream. -/
theorem decode_missing_samplerate_witness :
    decode Decoder.resetState [⟨0, .rising⟩] = Except.error DecodeError.missingSampleRate :=
  decode_missing_samplerate Decoder.resetState [⟨0, .rising⟩] rfl

/-- C3: when the sixteenth bit is classified, the step emits exactly one
word-level record spanning `[wordStart, p)` whose text is the accumulated
16-bit value rendered as a literal `0x` followed by exactly four lowercase
hexadecimal digits, exactly one command-level record spanning
`[commandStart, p)` whose text is the command-table description of that
value, and returns to the `FIND RESET` state. -/
theorem word_completion_emission (s : Decoder) (p : Nat) (hs : s.state = "BITS")
    (h15 : s.num_bits = 15) (hc : s.content < 2 ^ 15)
    (hband : ((((p : Int) - s.lastFalling : Int) : ℚ) * s.usec > 3000 ∧
              (((p : Int) - s.lastFalling : Int) : ℚ) * s.usec < 5000) ∨
             ((((p : Int) - s.lastFalling : Int) : ℚ) * s.usec > 6000 ∧
              (((p : Int) - s.lastFalling : Int) : ℚ) * s.usec < 8000)) :
    (stepEdge s ⟨p, .falling⟩).2.filter (fun a => a.row == 1) =
      [{ startSample := s.wordStart, endSample := (p : Int), row := 1,
         texts := [formatHex06 ((stepEdge s ⟨p, .falling⟩).1.content)] }] ∧
    (stepEdge s ⟨p, .falling⟩).2.filter (fun a => a.row == 2) =
      [{ startSample := s.commandStart, endSample := (p : Int), row := 2,
         texts := [contentToDescription ((stepEdge s ⟨p, .falling⟩).1.content)] }] ∧
    (stepEdge s ⟨p, .falling⟩).1.state = "FIND RESET" ∧
    (∃ ds : List Char, ds.length = 4 ∧ (∀ ch ∈ ds, ch ∈ lowercaseHexChars) ∧
      formatHex06 ((stepEdge s ⟨p, .falling⟩).1.content) = String.mk ('0' :: 'x' :: ds)) := by
  rw [stepEdge_bits _ _ hs]
  rcases hband with hA | hB
  · rw [stepBits_falling_zero16 _ _ hA.1 hA.2 (by omega)]
    refine ⟨by simp, by simp, by simp, ?_⟩
    have := formatHex06_shape (s.content * 2) (by omega)
    simpa using this
  · rw [stepBits_falling_one16 _ _ hB.1 hB.2 (by omega)]
    refine ⟨by simp, by simp, by simp, ?_⟩
    have := formatHex06_shape (s.content * 2 + 1) (by omega)
    simpa using this

/-- C3 witness: the concrete run's sixteenth bit edge emits the word 0x0000
and its command description. -/
theorem word_completion_emission_witness :
    (stepEdge (bitsState 650 15) ⟨690, .falling⟩).2.filter (fun a => a.row == 1) =
      [{ startSample := (bitsState 650 15).wordStart, endSample := (690 : Int), row := 1,
         texts := [formatHex06 ((stepEdge (bitsState 650 15) ⟨690, .falling⟩).1.content)] }] ∧
    (stepEdge (bitsState 650 15) ⟨690, .falling⟩).2.filter (fun a => a.row == 2) =
      [{ startSample := (bitsState 650 15).commandStart, endSample := (690 : Int), row := 2,
         texts := [contentToDescription ((stepEdge (bitsState 650 15) ⟨690, .falling⟩).1.content)] }] ∧
    (stepEdge (bitsState 650 15) ⟨690, .falling⟩).1.state = "FIND RESET" ∧
    (∃ ds : List Char, ds.length = 4 ∧ (∀ ch ∈ ds, ch ∈ lowercaseHexChars) ∧
      formatHex06 ((stepEdge (bitsState 650 15) ⟨690, .falling⟩).1.content) =
        String.mk ('0' :: 'x' :: ds)) :=
  word_completion_emission (bitsState 650 15) 690 rfl rfl (by norm_num [bitsState])
    (Or.inl (by norm_num [bitsState, Decoder.usec]))

/-- C4: along any decode session started from a fresh decoder with a
positive samplerate, the bit counter never exceeds 16, and a step emits a
word-level or command-level record only when it brings the bit counter to
exactly 16. -/
theorem num_bits_invariant (s : Decoder) (e : Edge) (h : Reachable s) :
    s.num_bits ≤ 16 ∧
    (∀ a ∈ (stepEdge s e).2, a.row = 1 ∨ a.row = 2 →
      (stepEdge s e).1.num_bits = 16) := by
  have hi := reachable_inv s h
  refine ⟨hi.2.1, fun a ha hr => ?_⟩
  exact (stepEdge_emission s e hi a ha (by omega)).2.1

/-- C4 witness: the concrete run reaches a state with 15 bits and its next
falling edge emits the word with the counter at exactly 16. -/
theorem num_bits_invariant_witness :
    (bitsState 650 15).num_bits ≤ 16 ∧
    (stepEdge (bitsState 650 15) ⟨690, .falling⟩).1.num_bits = 16 := by
  have h := num_bits_invariant (bitsState 650 15) ⟨690, .falling⟩ reachable_bitsState_650
  refine ⟨h.1, h.2 wordAnnA ?_ (Or.inl rfl)⟩
  rw [stepA16]
  simp

/-- C7: in a reachable `BITS` state, a falling edge whose low-phase duration
lies outside both classification bands changes nothing except
`lastFalling`, which is advanced to the new edge position; no output record
is emitted. -/
theorem unclassified_interval_only_lastFalling (s : Decoder) (p : Nat)
    (h : Reachable s) (hs : s.state = "BITS")
    (hA : ¬((((p : Int) - s.lastFalling : Int) : ℚ) * s.usec > 3000 ∧
            (((p : Int) - s.lastFalling : Int) : ℚ) * s.usec < 5000))
    (hB : ¬((((p : Int) - s.lastFalling : Int) : ℚ) * s.usec > 6000 ∧
            (((p : Int) - s.lastFalling : Int) : ℚ) * s.usec < 8000)) :
    stepEdge s ⟨p, .falling⟩ = ({ s with lastFalling := (p : Int) }, []) := by
  have hi := reachable_inv s h
  have hlt := (hi.2.2 hs).1
  rw [stepEdge_bits _ _ hs, stepBits_falling_none _ _ hA hB (by omega)]

/-- C7 witness: a concrete 5500 µs low phase (between the bands) only
advances `lastFalling`. -/
theorem unclassified_interval_only_lastFalling_witness :
    stepEdge (bitsState 50 0) ⟨105, .falling⟩ =
      ({ bitsState 50 0 with lastFalling := (105 : Int) }, []) :=
  unclassified_interval_only_lastFalling (bitsState 50 0) 105 reachable_bitsState_50 rfl
    (by norm_num [bitsState, Decoder.usec]) (by norm_num [bitsState, Decoder.usec])

/-- C8: the duplicated dictionary keys resolve last-definition-wins:
`0x8044` maps to "CD Stop" (not the earlier "Source: CD") and `0x8045`
maps to "CD Play/Pause" (not the earlier "CD ON"). -/
theorem duplicate_keys_last_wins :
    contentToDescription 0x8044 = "CD Stop" ∧
    contentToDescription 0x8044 ≠ "Source: CD" ∧
    contentToDescription 0x8045 = "CD Play/Pause" ∧
    contentToDescription 0x8045 ≠ "CD ON" := by
  decide

/-- C9 counterexample: `0x2468` is not a key of the command table, yet the
lookup does not return "unknown" (the coded default is "????"). -/
theorem default_description_counterexample :
    (∀ kv ∈ commandTableEntries, kv.1 ≠ 0x2468) ∧
    contentToDescription 0x2468 ≠ "unknown" := by
  decide

/-- C9 (amended): for every code that is not a key of the command table,
`contentToDescription` returns the coded default description "????". -/
theorem default_description_unmapped (c : Nat)
    (h : ∀ kv ∈ commandTableEntries, kv.1 ≠ c) :
    contentToDescription c = "????" := by
  rw [contentToDescription, lookupLast_eq_none _ _ h]
  rfl

/-- C9 witness: the unmapped code `0x2468` yields "????". -/
theorem default_description_unmapped_witness :
    contentToDescription 0x2468 = "????" :=
  default_description_unmapped 0x2468 (by decide)

/-- C10: a word-level record and a command-level record emitted by the same
step end at the same sample position, and the command record starts
strictly before the word record (its span strictly contains the word's). -/
theorem command_span_contains_word_span (s : Decoder) (e : Edge) (w c : Ann)
    (h : Reachable s) (hw : w ∈ (stepEdge s e).2) (hc : c ∈ (stepEdge s e).2)
    (hw1 : w.row = 1) (hc2 : c.row = 2) :
    w.endSample = c.endSample ∧ c.startSample < w.startSample := by
  have hi := reachable_inv s h
  have hwE := stepEdge_emission s e hi w hw (by omega)
  have hcE := stepEdge_emission s e hi c hc (by omega)
  rcases hwE.2.2.2 with ⟨-, hws⟩ | ⟨h2, -⟩
  · rcases hcE.2.2.2 with ⟨h1, -⟩ | ⟨-, hcs⟩
    · omega
    · refine ⟨by rw [hwE.2.2.1, hcE.2.2.1], ?_⟩
      rw [hws, hcs]
      exact (hi.2.2 hwE.1).2
  · omega

/-- C10 witness: the concrete run's word and command records end together
at sample 690 and start at 50 and 0 respectively. -/
theorem command_span_contains_word_span_witness :
    wordAnnA.endSample = cmdAnnA.endSample ∧
    cmdAnnA.startSample < wordAnnA.startSample :=
  command_span_contains_word_span (bitsState 650 15) ⟨690, .falling⟩ wordAnnA cmdAnnA
    reachable_bitsState_650 (by rw [stepA16]; simp) (by rw [stepA16]; simp) rfl rfl
